import Mathlib

/-!
Verification development for the `count_plugins.py` pipeline
(repository scanner / plugin counter / change classifier).

Python strings are embedded as `List Char` (`PyStr`); the Python string
operations used by the script (`startswith`, `split`, `strip`, `isdigit`,
`endswith`, `in`) are translated as structural recursions over `List Char`
matching CPython semantics on the relevant inputs.  Machine-level details
that the script never relies on (Unicode digit classes beyond ASCII,
locale) are fixed to the ASCII behaviour the repository data exercises.
-/

set_option maxRecDepth 4000

/-- Embedding of a Python `str` as a list of characters. -/
abbrev PyStr := List Char

/-- Python `s.startswith(pre)`. -/
def pyStartsWith (pre s : PyStr) : Bool := List.isPrefixOf pre s

/-- Python `s.endswith(suf)`. -/
def pyEndsWith (suf s : PyStr) : Bool := List.isSuffixOf suf s

/-- Python `s.strip()`: drop whitespace from both ends. -/
def pyStrip (s : PyStr) : PyStr :=
  ((s.dropWhile Char.isWhitespace).reverse.dropWhile Char.isWhitespace).reverse

/-- Python `s.isdigit()` (ASCII digits): nonempty and all characters digits. -/
def pyIsDigit (s : PyStr) : Bool := !s.isEmpty && s.all Char.isDigit

/-- Python `int(s)` on a digit string. -/
def digitsToNat (s : PyStr) : Nat := s.foldl (fun n c => 10 * n + (c.toNat - 48)) 0

/-- Python `s.split(sep)` for a single-character separator: keeps empty fields. -/
def pySplitOn (sep : Char) : PyStr → List PyStr
  | [] => [[]]
  | c :: cs =>
    let r := pySplitOn sep cs
    if c = sep then [] :: r
    else
      match r with
      | [] => [[c]]
      | h :: t => (c :: h) :: t

/-- Grouping step for Python `s.split()` (no argument): split on every
whitespace character, keeping empty fields for the moment. -/
def splitWSAux : PyStr → List PyStr
  | [] => [[]]
  | c :: cs =>
    let r := splitWSAux cs
    if c.isWhitespace then [] :: r
    else
      match r with
      | [] => [[c]]
      | h :: t => (c :: h) :: t

/-- Python `s.split()` (no argument): split on whitespace runs, dropping
empty fields. -/
def pySplitWS (s : PyStr) : List PyStr := (splitWSAux s).filter (fun t => !t.isEmpty)

/-! ### Change Classifier (`get_repo_changes`) -/

/-- A plugin change event, as built by `get_repo_changes`
(`plugin_info = {"author": _, "name": _, "commit": _, "time": _}`).
`time` is an `Option` because `current_commit_time` can still be Python
`None` when the event is built. -/
structure PluginInfo where
  author : PyStr
  name : PyStr
  commit : PyStr
  time : Option Int
deriving DecidableEq

/-- The loop state of `get_repo_changes`: the commit id / timestamp being
scanned and the three accumulated event lists. -/
structure ScanState where
  current_commit : Option PyStr
  current_commit_time : Option Int
  added_plugins : List PluginInfo
  removed_plugins : List PluginInfo
  modified_plugins : List PluginInfo
deriving DecidableEq

def initState : ScanState := ⟨none, none, [], [], []⟩

/-- The header marker `'commit '` used by `line.startswith('commit ')`. -/
def commitHeaderStr : PyStr := "commit ".data

/-- `skip_dirs = ['.git', '.github', '.assets', 'logs']`. -/
def skipDirs : List PyStr := [".git".data, ".github".data, ".assets".data, "logs".data]

/-- The five official-repository category directories. -/
def officialCategories : List PyStr :=
  ["agent-strategies".data, "extensions".data, "models".data, "tools".data, "migrations".data]

/-- Python `x in xs` membership test on strings. -/
def memStr (xs : List PyStr) (x : PyStr) : Bool := xs.any (fun y => decide (y = x))

/-- `if plugin_info not in lst: lst.append(plugin_info)`. -/
def dedupAppend (l : List PluginInfo) (i : PluginInfo) : List PluginInfo :=
  if i ∈ l then l else l ++ [i]

/-- Dispatch of a file change on its status code:
`A` → added, `D` → removed, `M` → modified, anything else ignored,
each list deduplicated on append. -/
def recordEvent (st : ScanState) (change_type : PyStr) (info : PluginInfo) : ScanState :=
  if pyStartsWith ("A".data) change_type then
    { st with added_plugins := dedupAppend st.added_plugins info }
  else if pyStartsWith ("D".data) change_type then
    { st with removed_plugins := dedupAppend st.removed_plugins info }
  else if pyStartsWith ("M".data) change_type then
    { st with modified_plugins := dedupAppend st.modified_plugins info }
  else st

/-- One iteration of the `for line in changes` loop of `get_repo_changes`.
`none` models a Python exception escaping the loop (`line.split()[1]`
raising `IndexError`, or tuple unpacking of `line.split('\t')` raising
`ValueError`), which the enclosing `try` turns into the empty result. -/
def processLine (isCommunity : Bool) (sinceTime : Int) (st : ScanState) (line : PyStr) :
    Option ScanState :=
  if line.isEmpty then some st
  else if pyStartsWith commitHeaderStr line then
    match (pySplitWS line).get? 1 with
    | some tok => some { st with current_commit := some tok }
    | none => none
  else if pyIsDigit (pyStrip line) then
    if (digitsToNat (pyStrip line) : Int) < sinceTime then
      some { st with current_commit := none, current_commit_time := none }
    else some { st with current_commit_time := some (digitsToNat (pyStrip line) : Int) }
  else
    match st.current_commit with
    | none => some st
    | some cc =>
      if !line.contains '\t' then some st
      else
        match pySplitOn '\t' line with
        | [change_type, file_path] =>
          match pySplitOn '/' file_path with
          | p0 :: p1 :: _ =>
            if memStr skipDirs p0 then some st
            else if isCommunity then
              if p1.isEmpty then some st
              else some (recordEvent st change_type ⟨p0, p1, cc, st.current_commit_time⟩)
            else
              if !memStr officialCategories p0 then some st
              else if p1.isEmpty then some st
              else some (recordEvent st change_type ⟨p0, p1, cc, st.current_commit_time⟩)
          | _ => some st
        | _ => none

/-- The scanning loop of `get_repo_changes` over all log lines. -/
def scanLines (isCommunity : Bool) (sinceTime : Int) : ScanState → List PyStr → Option ScanState
  | st, [] => some st
  | st, l :: ls =>
    match processLine isCommunity sinceTime st l with
    | some st' => scanLines isCommunity sinceTime st' ls
    | none => none

/-- Sort key `lambda x: x["time"]`; only evaluated against other keys on
lists where every `time` is present (see `sortFails`). -/
def timeKey (e : PluginInfo) : Int := e.time.getD 0

/-- The descending comparison used by `list.sort(key=..., reverse=True)`. -/
def timeGe (a b : PluginInfo) : Prop := timeKey b ≤ timeKey a

instance : DecidableRel timeGe := fun a b => Int.decLe (timeKey b) (timeKey a)

instance : IsTotal PluginInfo timeGe := ⟨fun a b => Int.le_total (timeKey b) (timeKey a)⟩

instance : IsTrans PluginInfo timeGe := ⟨fun _ _ _ h1 h2 => le_trans h2 h1⟩

/-- Python `lst.sort(key=lambda x: x["time"], reverse=True)`: a stable sort
by time, most recent first (CPython's sort is stable and `reverse=True`
preserves the relative order of equal keys). -/
def sortDesc (l : List PluginInfo) : List PluginInfo := List.insertionSort timeGe l

/-- CPython raises `TypeError` while sorting as soon as a `None` key is
compared with anything; with at least two elements every key takes part in
some comparison, so the sort raises exactly when the list has length ≥ 2
and contains a `None` time. -/
def sortFails (l : List PluginInfo) : Bool :=
  decide (2 ≤ l.length) && l.any (fun e => e.time.isNone)

/-- `get_repo_changes`, parameterised by the repository category test
`repo_path.endswith('dify-plugins')` (`isCommunity`), the cutoff
`since_time`, and the list `changes` of log lines.  Returns
`(added_plugins, removed_plugins, modified_plugins)`; every exceptional
path of the Python function returns `([], [], [])`. -/
def get_repo_changes (isCommunity : Bool) (sinceTime : Int) (changes : List PyStr) :
    List PluginInfo × List PluginInfo × List PluginInfo :=
  match changes with
  | [] => ([], [], [])
  | first :: _ =>
    if first.isEmpty then ([], [], [])
    else
      match scanLines isCommunity sinceTime initState changes with
      | none => ([], [], [])
      | some st =>
        if sortFails st.added_plugins || sortFails st.removed_plugins ||
            sortFails st.modified_plugins then ([], [], [])
        else (sortDesc st.added_plugins, sortDesc st.removed_plugins,
              sortDesc st.modified_plugins)

/-! ### Community plugin counter (`count_plugins_community`) -/

/-- A directory entry inside an author directory, as seen by
`os.listdir` plus `os.path.isdir`. -/
structure FsItem where
  name : PyStr
  isDir : Bool
deriving DecidableEq

/-- A top-level entry of the community repository snapshot: its name,
whether it is a directory, and (when it is) its contents. -/
structure TopEntry where
  name : PyStr
  isDir : Bool
  items : List FsItem
deriving DecidableEq

/-- The filter building `author_dirs`: top-level directories that are not
in `skip_dirs` and not dot-prefixed. -/
def isAuthorDir (e : TopEntry) : Bool :=
  e.isDir && !memStr skipDirs e.name && !pyStartsWith (".".data) e.name

/-- The body of the `for author_dir in author_dirs` loop: add the number
of subdirectories when there is at least one, otherwise the number of
`.difypkg` files (only when positive, which changes nothing). -/
def countAuthor (total : Nat) (a : TopEntry) : Nat :=
  let subdirs := a.items.filter (fun d => d.isDir)
  if !subdirs.isEmpty then total + subdirs.length
  else
    let difypkg_count := (a.items.filter (fun f => pyEndsWith (".difypkg".data) f.name)).length
    if 0 < difypkg_count then total + difypkg_count else total

/-- `count_plugins_community` on a snapshot given as its top-level
listing. -/
def count_plugins_community (repo : List TopEntry) : Nat :=
  (repo.filter isAuthorDir).foldl countAuthor 0

/-! ### History store and delta calculator (`calculate_new_plugins`) -/

/-- Lexicographic (code-point) comparison of Python strings, as used by
`sorted` on `YYYY-MM-DD` date keys. -/
def ltChars : PyStr → PyStr → Bool
  | [], [] => false
  | [], _ :: _ => true
  | _ :: _, [] => false
  | a :: as', b :: bs' =>
    if a.toNat < b.toNat then true
    else if b.toNat < a.toNat then false
    else ltChars as' bs'

/-- The (non-strict) order used to model Python's ascending `sorted`. -/
def dateLe (a b : PyStr) : Prop := ltChars a b = true ∨ a = b

instance : DecidableRel dateLe := fun a b =>
  inferInstanceAs (Decidable (ltChars a b = true ∨ a = b))

/-- A history category is a Python `dict` mapping date strings to counts,
modelled as its insertion-ordered association list with unique keys. -/
abbrev HistCat := List (PyStr × Int)

/-- The key list of a category, in dict (insertion) order. -/
def keysOf (h : HistCat) : List PyStr := h.map Prod.fst

/-- Python `k in d`. -/
def dictHasKey (h : HistCat) (k : PyStr) : Bool := h.any (fun p => decide (p.1 = k))

/-- Python `d[k] = v`: overwrite in place when the key exists, append
otherwise. -/
def dictSet (h : HistCat) (k : PyStr) (v : Int) : HistCat :=
  if dictHasKey h k then h.map (fun p => if p.1 = k then (p.1, v) else p)
  else h ++ [(k, v)]

/-- Python `del d[k]`. -/
def dictDel (h : HistCat) (k : PyStr) : HistCat := h.filter (fun p => !decide (p.1 = k))

/-- Lookup returning an `Option`. -/
def dictFind (h : HistCat) (k : PyStr) : Option Int :=
  (h.find? (fun p => decide (p.1 = k))).map Prod.snd

/-- Python `d[k]` on a key known to be present (the script only reads keys
it has just enumerated). -/
def dictGet (h : HistCat) (k : PyStr) : Int := (dictFind h k).getD 0

/-- Python `sorted` on a list of date strings. -/
def sortAsc (l : List PyStr) : List PyStr := List.insertionSort dateLe l

/-- `prev = history[cat][dates[-1]] if dates else 0` where
`dates = sorted(d for d in history[cat] if d != today)`. -/
def prevOfCat (today : PyStr) (cat : HistCat) : Int :=
  let dates := sortAsc ((keysOf cat).filter (fun d => !decide (d = today)))
  match dates.getLast? with
  | some d => dictGet cat d
  | none => 0

/-- The retention step: `dates = sorted(history[cat].keys())`; when more
than 30, delete every date in `dates[:-30]`. -/
def pruneCat (cat : HistCat) : HistCat :=
  let dates := sortAsc (keysOf cat)
  if 30 < dates.length then (dates.take (dates.length - 30)).foldl dictDel cat
  else cat

/-- The two-category history file `{"community": {...}, "official": {...}}`. -/
structure History where
  community : HistCat
  official : HistCat
deriving DecidableEq

/-- `calculate_new_plugins(history, community_count, official_count)` with
`today` passed explicitly (`datetime.now().strftime("%Y-%m-%d")`).
Returns the updated history (the Python function mutates it in place)
together with `(community_new, official_new, total_new)`. -/
def calculate_new_plugins (today : PyStr) (history : History)
    (community_count official_count : Int) : History × Int × Int × Int :=
  if history.community = [] ∧ history.official = [] then
    (⟨dictSet history.community today community_count,
      dictSet history.official today official_count⟩, 0, 0, 0)
  else
    let prev_community := prevOfCat today history.community
    let prev_official := prevOfCat today history.official
    let community_new := max 0 (community_count - prev_community)
    let official_new := max 0 (official_count - prev_official)
    let newCommunity := pruneCat (dictSet history.community today community_count)
    let newOfficial := pruneCat (dictSet history.official today official_count)
    (⟨newCommunity, newOfficial⟩, community_new, official_new, community_new + official_new)

/-! ### Helper lemmas -/

/-- Per-author plugin contribution as described by the community counting
rule: the number of subdirectories when there is at least one, otherwise
the number of `.difypkg` files. -/
def contribOf (a : TopEntry) : Nat :=
  let subdirs := a.items.filter (fun d => d.isDir)
  if subdirs.isEmpty then (a.items.filter (fun f => pyEndsWith (".difypkg".data) f.name)).length
  else subdirs.length

theorem countAuthor_eq (total : Nat) (a : TopEntry) : countAuthor total a = total + contribOf a := by
  simp only [countAuthor, contribOf]
  cases h : (a.items.filter (fun d => d.isDir)).isEmpty with
  | false => simp [h]
  | true =>
    simp only [h, Bool.not_true, Bool.false_eq_true, if_false, if_true]
    split <;> omega

theorem foldl_countAuthor (l : List TopEntry) (n : Nat) :
    l.foldl countAuthor n = n + (l.map contribOf).sum := by
  induction l generalizing n with
  | nil => simp
  | cons a t ih =>
    simp only [List.foldl_cons, List.map_cons, List.sum_cons, countAuthor_eq]
    rw [ih]
    omega

/-! ### Claims C5, C6, C9 -/

/-- Claim C9: community plugin counting.  For every snapshot the count is
the sum, over top-level author directories (directories not in the
ignore-set and not dot-prefixed), of the number of subdirectories when
there is at least one, and otherwise the number of `.difypkg` files; in
particular `alice` with subdirectories `plugin1`, `plugin2` contributes 2,
`bob` with three `.difypkg` files contributes 3, and together they count
as 5. -/
theorem claim_C9 :
    (∀ repo : List TopEntry,
      count_plugins_community repo = ((repo.filter isAuthorDir).map contribOf).sum) ∧
    count_plugins_community
      [⟨"alice".data, true, [⟨"plugin1".data, true⟩, ⟨"plugin2".data, true⟩]⟩] = 2 ∧
    count_plugins_community
      [⟨"bob".data, true,
        [⟨"a.difypkg".data, false⟩, ⟨"b.difypkg".data, false⟩, ⟨"c.difypkg".data, false⟩]⟩] = 3 ∧
    count_plugins_community
      [⟨"alice".data, true, [⟨"plugin1".data, true⟩, ⟨"plugin2".data, true⟩]⟩,
       ⟨"bob".data, true,
        [⟨"a.difypkg".data, false⟩, ⟨"b.difypkg".data, false⟩, ⟨"c.difypkg".data, false⟩]⟩] = 5 := by
  refine ⟨fun repo => ?_, by decide, by decide, by decide⟩
  simp [count_plugins_community, foldl_countAuthor]

/-- Claim C5: for every history and current counts, the per-category
deltas of `calculate_new_plugins` are non-negative, a current count below
the previous recorded count yields a zero delta, and the total is the sum
of the two per-category deltas. -/
theorem claim_C5 (today : PyStr) (history : History) (cc oc : Int) :
    0 ≤ (calculate_new_plugins today history cc oc).2.1 ∧
    0 ≤ (calculate_new_plugins today history cc oc).2.2.1 ∧
    (calculate_new_plugins today history cc oc).2.2.2 =
      (calculate_new_plugins today history cc oc).2.1 +
        (calculate_new_plugins today history cc oc).2.2.1 ∧
    (cc < prevOfCat today history.community →
      (calculate_new_plugins today history cc oc).2.1 = 0) ∧
    (oc < prevOfCat today history.official →
      (calculate_new_plugins today history cc oc).2.2.1 = 0) := by
  unfold calculate_new_plugins
  split
  · simp
  · refine ⟨?_, ?_, rfl, fun h => ?_, fun h => ?_⟩ <;> simp only [] <;> omega

/-- Witness for claim C5 at a concrete shrinking history: previous count
5, current count 3, delta 0 and non-negative. -/
theorem claim_C5_witness :
    ((calculate_new_plugins ("2026-10-12".data) ⟨[(("2026-01-01".data), 5)], []⟩ 3 0).2.1 = 0) ∧
    (0 ≤ (calculate_new_plugins ("2026-10-12".data) ⟨[(("2026-01-01".data), 5)], []⟩ 3 0).2.2.1) := by
  have h := claim_C5 ("2026-10-12".data) ⟨[(("2026-01-01".data), 5)], []⟩ 3 0
  exact ⟨h.2.2.2.1 (by decide), h.2.1⟩

/-- Claim C6: on a history in which neither category has any recorded
date, `calculate_new_plugins` returns `(0, 0, 0)` and the updated history
holds exactly one date per category, `today`, mapped to the current
count. -/
theorem claim_C6 (today : PyStr) (history : History) (cc oc : Int)
    (h1 : history.community = []) (h2 : history.official = []) :
    calculate_new_plugins today history cc oc =
      (⟨[(today, cc)], [(today, oc)]⟩, 0, 0, 0) := by
  unfold calculate_new_plugins
  rw [if_pos ⟨h1, h2⟩, h1, h2]
  rfl

/-- Witness for claim C6 on the empty history. -/
theorem claim_C6_witness :
    calculate_new_plugins ("2026-10-12".data) ⟨[], []⟩ 4 2 =
      (⟨[(("2026-10-12".data), 4)], [(("2026-10-12".data), 2)]⟩, 0, 0, 0) :=
  claim_C6 ("2026-10-12".data) ⟨[], []⟩ 4 2 rfl rfl

/-! ### Deduplication machinery (claim C2) -/

theorem dedupAppend_nodup {l : List PluginInfo} (h : l.Nodup) (i : PluginInfo) :
    (dedupAppend l i).Nodup := by
  unfold dedupAppend
  split
  · exact h
  · next hni => simp [List.nodup_append, h, hni]

/-- The three accumulated event lists of a scan state have no duplicates. -/
def NodupState (st : ScanState) : Prop :=
  st.added_plugins.Nodup ∧ st.removed_plugins.Nodup ∧ st.modified_plugins.Nodup

theorem recordEvent_nodup {st : ScanState} (h : NodupState st) (ct : PyStr) (i : PluginInfo) :
    NodupState (recordEvent st ct i) := by
  obtain ⟨h1, h2, h3⟩ := h
  unfold recordEvent
  split
  · exact ⟨dedupAppend_nodup h1 i, h2, h3⟩
  · split
    · exact ⟨h1, dedupAppend_nodup h2 i, h3⟩
    · split
      · exact ⟨h1, h2, dedupAppend_nodup h3 i⟩
      · exact ⟨h1, h2, h3⟩

theorem processLine_nodup {isCommunity : Bool} {sinceTime : Int} {st st' : ScanState}
    {line : PyStr} (h : processLine isCommunity sinceTime st line = some st')
    (hn : NodupState st) : NodupState st' := by
  unfold processLine at h
  repeat' split at h
  all_goals
    first
      | (cases h; first
          | exact hn
          | exact recordEvent_nodup hn _ _)
      | simp at h

theorem scanLines_nodup {isCommunity : Bool} {sinceTime : Int} :
    ∀ {lines : List PyStr} {st st' : ScanState},
      scanLines isCommunity sinceTime st lines = some st' → NodupState st → NodupState st'
  | [], _, _, h, hn => by
    cases h
    exact hn
  | l :: ls, st, st', h, hn => by
    unfold scanLines at h
    split at h
    · next st1 heq => exact scanLines_nodup h (processLine_nodup heq hn)
    · exact absurd h (by simp)

/-- Claim C2: for every input log the three result lists of
`get_repo_changes` contain no two events with an identical
`(author, name, commit, time)` tuple (events are exactly such tuples, so
the lists are duplicate-free); feeding the same
`(author, name, commit, time, status)` line twice yields exactly one
event. -/
theorem claim_C2 :
    (∀ (isCommunity : Bool) (sinceTime : Int) (changes : List PyStr),
      (get_repo_changes isCommunity sinceTime changes).1.Nodup ∧
      (get_repo_changes isCommunity sinceTime changes).2.1.Nodup ∧
      (get_repo_changes isCommunity sinceTime changes).2.2.Nodup) ∧
    (get_repo_changes true 0
      ["commit aaa".data, "1000".data, "A\ta/b/x".data, "A\ta/b/x".data]).1 =
      [⟨"a".data, "b".data, "aaa".data, some 1000⟩] := by
  refine ⟨fun isCommunity sinceTime changes => ?_, by decide⟩
  unfold get_repo_changes
  split
  · simp
  · split
    · simp
    · split
      · simp
      · next st heq =>
        split
        · simp
        · have hn := scanLines_nodup heq ⟨List.nodup_nil, List.nodup_nil, List.nodup_nil⟩
          exact ⟨(List.perm_insertionSort timeGe _).symm.nodup hn.1,
                 (List.perm_insertionSort timeGe _).symm.nodup hn.2.1,
                 (List.perm_insertionSort timeGe _).symm.nodup hn.2.2⟩

/-! ### Digit-line facts (claim C3) -/

theorem isDigit_not_ws (c : Char) (h : c.isDigit = true) : c.isWhitespace = false := by
  simp only [Char.isDigit, Bool.and_eq_true, decide_eq_true_eq] at h
  obtain ⟨h1, h2⟩ := h
  simp only [Char.isWhitespace, Bool.or_eq_false_iff, decide_eq_false_iff_not]
  refine ⟨⟨⟨?_, ?_⟩, ?_⟩, ?_⟩ <;> rintro rfl <;> exact absurd h1 (by decide)

theorem isDigit_ne_headChar (c : Char) (h : c.isDigit = true) : c ≠ 'c' := by
  rintro rfl
  exact absurd h (by decide)

theorem pyIsDigit_head {c : Char} {cs : PyStr} (h : pyIsDigit (c :: cs) = true) :
    c.isDigit = true := by
  simp [pyIsDigit, List.all_cons] at h
  exact h.1

theorem pyIsDigit_all {s : PyStr} (h : pyIsDigit s = true) : ∀ c ∈ s, c.isDigit = true := by
  simp only [pyIsDigit, Bool.and_eq_true, List.all_eq_true] at h
  exact h.2

theorem dropWhile_all_false {p : Char → Bool} {l : PyStr} (h : ∀ c ∈ l, p c = false) :
    l.dropWhile p = l := by
  cases l with
  | nil => rfl
  | cons c cs => simp [List.dropWhile_cons, h c (by simp)]

theorem pyStrip_of_digits {s : PyStr} (h : pyIsDigit s = true) : pyStrip s = s := by
  have hws : ∀ c ∈ s, c.isWhitespace = false := fun c hc => isDigit_not_ws c (pyIsDigit_all h c hc)
  unfold pyStrip
  rw [dropWhile_all_false hws,
      dropWhile_all_false (fun c hc => hws c (List.mem_reverse.mp hc)),
      List.reverse_reverse]

theorem header_not_digits {s : PyStr} (h : pyIsDigit s = true) :
    pyStartsWith commitHeaderStr s = false := by
  cases s with
  | nil => simp [pyIsDigit] at h
  | cons c cs =>
    have hne : ('c' == c) = false := beq_eq_false_iff_ne.mpr (Ne.symm (isDigit_ne_headChar c (pyIsDigit_head h)))
    rw [show commitHeaderStr = 'c' :: "ommit ".data from rfl]
    simp [pyStartsWith, List.isPrefixOf, hne]

theorem pyIsDigit_not_empty {s : PyStr} (h : pyIsDigit s = true) : s.isEmpty = false := by
  cases s with
  | nil => simp [pyIsDigit] at h
  | cons c cs => simp

/-- On a purely numeric line, `processLine` parses the timestamp and either
clears both `current_commit` and `current_commit_time` (timestamp older
than the cutoff) or records the timestamp. -/
theorem processLine_digits {isCommunity : Bool} {sinceTime : Int} {st : ScanState} {ts : PyStr}
    (h : pyIsDigit ts = true) :
    processLine isCommunity sinceTime st ts =
      if (digitsToNat ts : Int) < sinceTime then
        some { st with current_commit := none, current_commit_time := none }
      else some { st with current_commit_time := some (digitsToNat ts : Int) } := by
  unfold processLine
  rw [pyIsDigit_not_empty h, header_not_digits h, pyStrip_of_digits h, h]
  simp

theorem scanLines_cons {isCommunity : Bool} {sinceTime : Int} {st st1 : ScanState}
    {l : PyStr} {ls : List PyStr} (h : processLine isCommunity sinceTime st l = some st1) :
    scanLines isCommunity sinceTime st (l :: ls) = scanLines isCommunity sinceTime st1 ls := by
  show (match processLine isCommunity sinceTime st l with
    | some st' => scanLines isCommunity sinceTime st' ls
    | none => none) = scanLines isCommunity sinceTime st1 ls
  rw [h]

/-- Claim C3: the lookback boundary.  For any cutoff `sinceTime`
(`now − window`), a commit whose timestamp line parses to
`sinceTime − 1` contributes no events (its file lines are skipped), while
one parsing to `sinceTime + 1` contributes its events. -/
theorem claim_C3 (sinceTime : Int) :
    (∀ ts : PyStr, pyIsDigit ts = true → (digitsToNat ts : Int) = sinceTime - 1 →
      get_repo_changes true sinceTime ["commit aaa".data, ts, "A\talice/p1/x".data] =
        ([], [], [])) ∧
    (∀ ts : PyStr, pyIsDigit ts = true → (digitsToNat ts : Int) = sinceTime + 1 →
      get_repo_changes true sinceTime ["commit aaa".data, ts, "A\talice/p1/x".data] =
        ([⟨"alice".data, "p1".data, "aaa".data, some (sinceTime + 1)⟩], [], [])) := by
  constructor
  · intro ts h1 h2
    have e1 : processLine true sinceTime initState ("commit aaa".data) =
        some ⟨some ("aaa".data), none, [], [], []⟩ := rfl
    have e2 : processLine true sinceTime ⟨some ("aaa".data), none, [], [], []⟩ ts =
        some ⟨none, none, [], [], []⟩ := by
      rw [processLine_digits h1, h2, if_pos (show sinceTime - 1 < sinceTime by omega)]
    have e3 : processLine true sinceTime ⟨none, none, [], [], []⟩ ("A\talice/p1/x".data) =
        some ⟨none, none, [], [], []⟩ := rfl
    have hscan : scanLines true sinceTime initState
        ["commit aaa".data, ts, "A\talice/p1/x".data] = some ⟨none, none, [], [], []⟩ := by
      rw [scanLines_cons e1, scanLines_cons e2, scanLines_cons e3]
      rfl
    simp only [get_repo_changes, hscan]
    rfl
  · intro ts h1 h2
    have e1 : processLine true sinceTime initState ("commit aaa".data) =
        some ⟨some ("aaa".data), none, [], [], []⟩ := rfl
    have e2 : processLine true sinceTime ⟨some ("aaa".data), none, [], [], []⟩ ts =
        some ⟨some ("aaa".data), some (sinceTime + 1), [], [], []⟩ := by
      rw [processLine_digits h1, h2, if_neg (show ¬ sinceTime + 1 < sinceTime by omega)]
    have e3 : processLine true sinceTime ⟨some ("aaa".data), some (sinceTime + 1), [], [], []⟩
        ("A\talice/p1/x".data) =
        some ⟨some ("aaa".data), some (sinceTime + 1),
          [⟨"alice".data, "p1".data, "aaa".data, some (sinceTime + 1)⟩], [], []⟩ := rfl
    have hscan : scanLines true sinceTime initState
        ["commit aaa".data, ts, "A\talice/p1/x".data] =
        some ⟨some ("aaa".data), some (sinceTime + 1),
          [⟨"alice".data, "p1".data, "aaa".data, some (sinceTime + 1)⟩], [], []⟩ := by
      rw [scanLines_cons e1, scanLines_cons e2, scanLines_cons e3]
      rfl
    simp only [get_repo_changes, hscan]
    rfl

/-- Witness for claim C3 at cutoff 1000: timestamp 999 yields nothing,
timestamp 1001 yields the event. -/
theorem claim_C3_witness :
    get_repo_changes true 1000 ["commit aaa".data, "999".data, "A\talice/p1/x".data] =
      ([], [], []) ∧
    get_repo_changes true 1000 ["commit aaa".data, "1001".data, "A\talice/p1/x".data] =
      ([⟨"alice".data, "p1".data, "aaa".data, some 1001⟩], [], []) := by
  refine ⟨(claim_C3 1000).1 ("999".data) (by decide) (by decide), ?_⟩
  have h := (claim_C3 1000).2 ("1001".data) (by decide) (by decide)
  simpa using h

/-! ### Claim C1 (corrected): commit headers do not clear the timestamp -/

/-- Counterexample to claim C1: a commit header (`commit bbb`) followed by
a status/path line with no timestamp line in between still yields an
event, attributed to `bbb` with the previous commit's timestamp `1000`. -/
theorem claim_C1_cex :
    get_repo_changes true 500
      ["commit aaa".data, "1000".data, "commit bbb".data, "A\talice/p1/x".data] =
      ([⟨"alice".data, "p1".data, "bbb".data, some 1000⟩], [], []) ∧
    ([⟨"alice".data, "p1".data, "bbb".data, some 1000⟩] : List PluginInfo) ≠ [] :=
  ⟨by decide, by decide⟩

/-- Claim C1 as amended: a commit-header line sets `current_commit` to the
parsed id but leaves `current_commit_time` unchanged, so status/path lines
following a header with no timestamp line in between are still processed
whenever a commit id is current, and are stamped with the stale previous
timestamp (`None` when no timestamp was ever parsed). -/
theorem claim_C1_amended :
    (∀ (isCommunity : Bool) (sinceTime : Int) (st : ScanState) (line tok : PyStr),
      pyStartsWith commitHeaderStr line = true →
      (pySplitWS line).get? 1 = some tok →
      processLine isCommunity sinceTime st line =
        some { st with current_commit := some tok }) ∧
    get_repo_changes true 500
      ["commit aaa".data, "1000".data, "commit bbb".data, "A\talice/p1/x".data] =
      ([⟨"alice".data, "p1".data, "bbb".data, some 1000⟩], [], []) := by
  refine ⟨fun isCommunity sinceTime st line tok h1 h2 => ?_, by decide⟩
  have hne : line.isEmpty = false := by
    cases line with
    | nil => exact absurd h1 (by decide)
    | cons c cs => rfl
  unfold processLine
  rw [hne, h1, h2]
  simp

/-- Witness for claim C1 as amended: on a concrete header line the state
keeps its timestamp and adopts the new commit id. -/
theorem claim_C1_witness :
    processLine true 0 initState ("commit abc".data) =
      some { initState with current_commit := some ("abc".data) } :=
  claim_C1_amended.1 true 0 initState ("commit abc".data) ("abc".data) (by decide) (by decide)

/-! ### Stable descending sort (claim C8) -/

theorem filter_orderedInsert_timeKey (t : Int) (a : PluginInfo) (l : List PluginInfo) :
    (List.orderedInsert timeGe a l).filter (fun e => decide (timeKey e = t)) =
      if timeKey a = t then a :: l.filter (fun e => decide (timeKey e = t))
      else l.filter (fun e => decide (timeKey e = t)) := by
  induction l with
  | nil =>
    simp only [List.orderedInsert, List.filter_cons, List.filter_nil]
    split <;> simp_all
  | cons x xs ih =>
    rw [List.orderedInsert]
    by_cases hax : timeGe a x
    · rw [if_pos hax]
      simp only [List.filter_cons]
      by_cases hat : timeKey a = t <;> simp [hat]
    · rw [if_neg hax]
      have hlt : timeKey a < timeKey x := lt_of_not_le hax
      by_cases hxt : timeKey x = t
      · have hat : ¬ timeKey a = t := by omega
        simp [List.filter_cons, hxt, hat, ih]
      · simp [List.filter_cons, hxt, ih]

theorem filter_sortDesc (t : Int) (l : List PluginInfo) :
    (sortDesc l).filter (fun e => decide (timeKey e = t)) =
      l.filter (fun e => decide (timeKey e = t)) := by
  induction l with
  | nil => rfl
  | cons a l ih =>
    show (List.orderedInsert timeGe a (List.insertionSort timeGe l)).filter _ = _
    rw [filter_orderedInsert_timeKey]
    by_cases hat : timeKey a = t
    · rw [if_pos hat, List.filter_cons, if_pos (by simp [hat])]
      exact congrArg (a :: ·) ih
    · rw [if_neg hat, List.filter_cons, if_neg (by simp [hat])]
      exact ih

/-- Claim C8: after scanning, each of the three event lists is sorted by
timestamp descending; the sort is a stable permutation of the insertion
order (events with equal timestamps keep their relative first-insertion
order, expressed by preservation of every equal-time fibre); whenever the
scan succeeds and the sorts do not raise, the output is exactly the three
sorted lists; and the concrete input with timestamps `[100, 300, 200]` for
one change type comes out as `[300, 200, 100]`. -/
theorem claim_C8 :
    (∀ (isCommunity : Bool) (sinceTime : Int) (changes : List PyStr),
      List.Sorted timeGe (get_repo_changes isCommunity sinceTime changes).1 ∧
      List.Sorted timeGe (get_repo_changes isCommunity sinceTime changes).2.1 ∧
      List.Sorted timeGe (get_repo_changes isCommunity sinceTime changes).2.2) ∧
    (∀ l : List PluginInfo,
      List.Perm (sortDesc l) l ∧
      ∀ t : Int, (sortDesc l).filter (fun e => decide (timeKey e = t)) =
        l.filter (fun e => decide (timeKey e = t))) ∧
    (∀ (isCommunity : Bool) (sinceTime : Int) (first : PyStr) (rest : List PyStr)
        (st : ScanState),
      first.isEmpty = false →
      scanLines isCommunity sinceTime initState (first :: rest) = some st →
      sortFails st.added_plugins = false →
      sortFails st.removed_plugins = false →
      sortFails st.modified_plugins = false →
      get_repo_changes isCommunity sinceTime (first :: rest) =
        (sortDesc st.added_plugins, sortDesc st.removed_plugins,
         sortDesc st.modified_plugins)) ∧
    (get_repo_changes true 0
      ["commit c1".data, "100".data, "A\ta/p/x".data, "commit c2".data, "300".data,
       "A\ta/q/x".data, "commit c3".data, "200".data, "A\ta/r/x".data]).1.map timeKey =
      [300, 200, 100] := by
  refine ⟨fun isCommunity sinceTime changes => ?_,
          fun l => ⟨List.perm_insertionSort timeGe l, fun t => filter_sortDesc t l⟩,
          fun isCommunity sinceTime first rest st h1 h2 h3 h4 h5 => ?_, by decide⟩
  · unfold get_repo_changes
    split
    · simp
    · split
      · simp
      · split
        · simp
        · split
          · simp
          · exact ⟨List.sorted_insertionSort timeGe _, List.sorted_insertionSort timeGe _,
                   List.sorted_insertionSort timeGe _⟩
  · unfold get_repo_changes
    dsimp only
    rw [h1, h2]
    dsimp only
    rw [h3, h4, h5]
    rfl

/-- Witness for claim C8: the `[100, 300, 200]` input scans to the three
insertion-order events and the output is their stable descending sort. -/
theorem claim_C8_witness :
    get_repo_changes true 0
      ["commit c1".data, "100".data, "A\ta/p/x".data, "commit c2".data, "300".data,
       "A\ta/q/x".data, "commit c3".data, "200".data, "A\ta/r/x".data] =
      (sortDesc [⟨"a".data, "p".data, "c1".data, some 100⟩,
                 ⟨"a".data, "q".data, "c2".data, some 300⟩,
                 ⟨"a".data, "r".data, "c3".data, some 200⟩], sortDesc [], sortDesc []) :=
  claim_C8.2.2.1 true 0 ("commit c1".data)
    ["100".data, "A\ta/p/x".data, "commit c2".data, "300".data, "A\ta/q/x".data,
     "commit c3".data, "200".data, "A\ta/r/x".data]
    ⟨some ("c3".data), some 200,
     [⟨"a".data, "p".data, "c1".data, some 100⟩,
      ⟨"a".data, "q".data, "c2".data, some 300⟩,
      ⟨"a".data, "r".data, "c3".data, some 200⟩], [], []⟩
    (by decide) (by decide) (by decide) (by decide) (by decide)

/-! ### Order facts for lexicographic string comparison (claims C4, C7, C10) -/

theorem charEq_of_toNat_eq {x y : Char} (h : x.toNat = y.toNat) : x = y :=
  Char.ext (UInt32.ext h)

theorem ltChars_irrefl : ∀ a : PyStr, ltChars a a = false
  | [] => rfl
  | c :: cs => by simp [ltChars, ltChars_irrefl cs]

theorem ltChars_trans : ∀ (a b c : PyStr),
    ltChars a b = true → ltChars b c = true → ltChars a c = true
  | [], [], _, h1, _ => by simp [ltChars] at h1
  | [], _ :: _, [], _, h2 => by simp [ltChars] at h2
  | [], _ :: _, _ :: _, _, _ => rfl
  | _ :: _, [], _, h1, _ => by simp [ltChars] at h1
  | _ :: _, _ :: _, [], _, h2 => by simp [ltChars] at h2
  | x :: xs, y :: ys, z :: zs, h1, h2 => by
    by_cases h1a : x.toNat < y.toNat
    · by_cases h2a : y.toNat < z.toNat
      · simp [ltChars, Nat.lt_trans h1a h2a]
      · by_cases h2b : z.toNat < y.toNat
        · rw [ltChars, if_neg h2a, if_pos h2b] at h2
          exact absurd h2 (by simp)
        · have hxz : x.toNat < z.toNat := by omega
          simp [ltChars, hxz]
    · by_cases h1b : y.toNat < x.toNat
      · rw [ltChars, if_neg h1a, if_pos h1b] at h1
        exact absurd h1 (by simp)
      · rw [ltChars, if_neg h1a, if_neg h1b] at h1
        by_cases h2a : y.toNat < z.toNat
        · have hxz : x.toNat < z.toNat := by omega
          simp [ltChars, hxz]
        · by_cases h2b : z.toNat < y.toNat
          · rw [ltChars, if_neg h2a, if_pos h2b] at h2
            exact absurd h2 (by simp)
          · rw [ltChars, if_neg h2a, if_neg h2b] at h2
            have hxz1 : ¬ x.toNat < z.toNat := by omega
            have hxz2 : ¬ z.toNat < x.toNat := by omega
            rw [ltChars, if_neg hxz1, if_neg hxz2]
            exact ltChars_trans xs ys zs h1 h2

theorem ltChars_tri : ∀ (a b : PyStr), ltChars a b = true ∨ a = b ∨ ltChars b a = true
  | [], [] => Or.inr (Or.inl rfl)
  | [], _ :: _ => Or.inl rfl
  | _ :: _, [] => Or.inr (Or.inr rfl)
  | x :: xs, y :: ys => by
    by_cases hxy : x.toNat < y.toNat
    · exact Or.inl (by simp [ltChars, hxy])
    · by_cases hyx : y.toNat < x.toNat
      · exact Or.inr (Or.inr (by simp [ltChars, hyx]))
      · have hexy : x = y := charEq_of_toNat_eq (by omega)
        subst hexy
        rcases ltChars_tri xs ys with h | h | h
        · exact Or.inl (by simp [ltChars, h])
        · exact Or.inr (Or.inl (by rw [h]))
        · exact Or.inr (Or.inr (by simp [ltChars, h]))

theorem ltChars_asymm {a b : PyStr} (h : ltChars a b = true) : ltChars b a = false := by
  cases hba : ltChars b a with
  | false => rfl
  | true =>
    have := ltChars_trans a b a h hba
    rw [ltChars_irrefl] at this
    exact absurd this (by simp)

instance : IsTotal PyStr dateLe :=
  ⟨fun a b => by
    rcases ltChars_tri a b with h | h | h
    · exact Or.inl (Or.inl h)
    · exact Or.inl (Or.inr h)
    · exact Or.inr (Or.inl h)⟩

instance : IsTrans PyStr dateLe :=
  ⟨fun a b c h1 h2 => by
    rcases h1 with h1 | h1
    · rcases h2 with h2 | h2
      · exact Or.inl (ltChars_trans a b c h1 h2)
      · exact h2 ▸ Or.inl h1
    · exact h1 ▸ h2⟩

theorem dateLe_antisymm {a b : PyStr} (h1 : dateLe a b) (h2 : dateLe b a) : a = b := by
  rcases h1 with h1 | h1
  · rcases h2 with h2 | h2
    · rw [ltChars_asymm h1] at h2
      exact absurd h2 (by simp)
    · exact h2.symm
  · exact h1

/-! ### Claim C4 (corrected): the previous count baseline -/

/-- The previous count as the spec's words describe it: the value at the
most recent recorded date strictly before `today` (lexical order), `0`
when no such date exists.  Stated only for comparison with `prevOfCat`,
which is what the code computes. -/
def specPrevBefore (today : PyStr) (cat : HistCat) : Int :=
  match (sortAsc ((keysOf cat).filter (fun d => ltChars d today))).getLast? with
  | some d => dictGet cat d
  | none => 0

/-- Counterexample to claim C4 as stated: with a recorded date lying after
`today` (`9999-01-01`), the code takes that future date as the baseline
(delta `max 0 (7 − 5) = 2`), not the most recent date strictly before
today (which would give `max 0 (7 − 0) = 7`). -/
theorem claim_C4_cex :
    (calculate_new_plugins ("2026-10-12".data) ⟨[(("9999-01-01".data), 5)], []⟩ 7 0).2.1 ≠
      max 0 (7 - specPrevBefore ("2026-10-12".data) [(("9999-01-01".data), 5)]) := by
  decide

/-- Claim C4 as amended: on a non-first run the previous count for each
category is taken from the lexically greatest recorded date other than
`today`; whenever every recorded date lies on or before `today` this is
exactly the most recent recorded date strictly before `today`, with `0`
when no such date exists. -/
theorem claim_C4_amended (today : PyStr) (history : History) (cc oc : Int)
    (hfr : ¬(history.community = [] ∧ history.official = []))
    (hc : ∀ d ∈ keysOf history.community, dateLe d today)
    (ho : ∀ d ∈ keysOf history.official, dateLe d today) :
    (calculate_new_plugins today history cc oc).2.1 =
      max 0 (cc - specPrevBefore today history.community) ∧
    (calculate_new_plugins today history cc oc).2.2.1 =
      max 0 (oc - specPrevBefore today history.official) := by
  have key : ∀ cat : HistCat, (∀ d ∈ keysOf cat, dateLe d today) →
      prevOfCat today cat = specPrevBefore today cat := by
    intro cat hcat
    have hfil : (keysOf cat).filter (fun d => !decide (d = today)) =
        (keysOf cat).filter (fun d => ltChars d today) := by
      apply List.filter_congr
      intro d hd
      rcases hcat d hd with hlt | heq
      · have hne : d ≠ today := by
          rintro rfl
          rw [ltChars_irrefl] at hlt
          exact absurd hlt (by simp)
        simp [hne, hlt]
      · subst heq
        simp [ltChars_irrefl]
    unfold prevOfCat specPrevBefore
    rw [hfil]
  unfold calculate_new_plugins
  rw [if_neg hfr]
  dsimp only
  rw [key _ hc, key _ ho]
  exact ⟨rfl, rfl⟩

/-- Witness for claim C4 as amended, on a history whose single recorded
date lies before today. -/
theorem claim_C4_witness :
    (calculate_new_plugins ("2026-10-12".data) ⟨[(("2026-01-01".data), 5)], []⟩ 7 9).2.1 =
      max 0 (7 - specPrevBefore ("2026-10-12".data) [(("2026-01-01".data), 5)]) ∧
    (calculate_new_plugins ("2026-10-12".data) ⟨[(("2026-01-01".data), 5)], []⟩ 7 9).2.2.1 =
      max 0 (9 - specPrevBefore ("2026-10-12".data) ([] : HistCat)) :=
  claim_C4_amended ("2026-10-12".data) ⟨[(("2026-01-01".data), 5)], []⟩ 7 9
    (by decide) (by decide) (by decide)

/-! ### Dictionary lemmas (claims C7, C10) -/

theorem keysOf_dictDel (c : HistCat) (d : PyStr) :
    keysOf (dictDel c d) = (keysOf c).filter (fun k => !decide (k = d)) := by
  induction c with
  | nil => rfl
  | cons p ps ih =>
    simp only [dictDel, keysOf, List.filter_cons] at *
    cases h : (!decide (p.1 = d)) with
    | false => simpa [h] using ih
    | true => simpa [h] using ih

theorem keysOf_foldl_dictDel (ds : List PyStr) (c : HistCat) :
    keysOf (ds.foldl dictDel c) = (keysOf c).filter (fun k => !decide (k ∈ ds)) := by
  induction ds generalizing c with
  | nil => simp
  | cons d ds ih =>
    rw [List.foldl_cons, ih, keysOf_dictDel, List.filter_filter]
    apply List.filter_congr
    intro k _
    by_cases h1 : k = d <;> by_cases h2 : k ∈ ds <;> simp [h1, h2]

theorem dictFind_dictDel_ne {c : HistCat} {d k : PyStr} (h : k ≠ d) :
    dictFind (dictDel c d) k = dictFind c k := by
  induction c with
  | nil => rfl
  | cons p ps ih =>
    simp only [dictDel, List.filter_cons] at *
    by_cases hp : p.1 = d
    · rw [if_neg (by simp [hp])]
      rw [show dictFind (p :: ps) k =
        (List.find? (fun q => decide (q.1 = k)) (p :: ps)).map Prod.snd from rfl]
      rw [List.find?_cons_of_neg _ (by simp [hp]; exact fun he => h he.symm)]
      exact ih
    · rw [if_pos (by simp [hp])]
      show (List.find? (fun q => decide (q.1 = k)) (p :: dictDel ps d)).map Prod.snd = _
      rw [show dictFind (p :: ps) k =
        (List.find? (fun q => decide (q.1 = k)) (p :: ps)).map Prod.snd from rfl]
      by_cases hk : p.1 = k
      · rw [List.find?_cons_of_pos _ (by simp [hk]), List.find?_cons_of_pos _ (by simp [hk])]
      · rw [List.find?_cons_of_neg _ (by simp [hk]), List.find?_cons_of_neg _ (by simp [hk])]
        exact ih

theorem dictFind_foldl_dictDel {ds : List PyStr} {c : HistCat} {k : PyStr} (h : k ∉ ds) :
    dictFind (ds.foldl dictDel c) k = dictFind c k := by
  induction ds generalizing c with
  | nil => rfl
  | cons d ds ih =>
    rw [List.foldl_cons, ih (fun hm => h (List.mem_cons_of_mem d hm)),
        dictFind_dictDel_ne (fun he => h (by rw [he]; exact List.mem_cons_self d ds))]

theorem dictHasKey_iff {c : HistCat} {k : PyStr} : dictHasKey c k = true ↔ k ∈ keysOf c := by
  simp [dictHasKey, List.any_eq_true, keysOf, List.mem_map]

theorem dictFind_dictSet (c : HistCat) (k : PyStr) (v : Int) :
    dictFind (dictSet c k v) k = some v := by
  unfold dictSet
  by_cases h : dictHasKey c k
  · rw [if_pos h]
    rw [dictHasKey] at h
    induction c with
    | nil => simp at h
    | cons p ps ih =>
      simp only [List.map_cons]
      by_cases hp : p.1 = k
      · rw [dictFind, List.find?_cons_of_pos _ (by simp [hp])]
        simp [hp]
      · rw [dictFind, List.find?_cons_of_neg _ (by simp [hp])]
        exact ih (by simpa [hp] using h)
  · rw [if_neg h]
    have hnone : List.find? (fun q => decide (q.1 = k)) c = none := by
      rw [List.find?_eq_none]
      intro p hp
      simp only [decide_eq_true_eq]
      intro he
      exact h (dictHasKey_iff.mpr (he ▸ List.mem_map_of_mem Prod.fst hp))
    rw [dictFind, List.find?_append, hnone]
    simp

theorem keysOf_dictSet_of_hasKey {c : HistCat} {k : PyStr} (v : Int) (h : dictHasKey c k = true) :
    keysOf (dictSet c k v) = keysOf c := by
  rw [dictSet, if_pos h, keysOf, keysOf, List.map_map]
  congr 1
  funext p
  by_cases hp : p.1 = k <;> simp [hp]

theorem keysOf_dictSet_of_not {c : HistCat} {k : PyStr} (v : Int) (h : dictHasKey c k = false) :
    keysOf (dictSet c k v) = keysOf c ++ [k] := by
  rw [dictSet, if_neg (by simp [h]), keysOf, List.map_append]
  rfl

theorem mem_keysOf_dictSet {c : HistCat} {k a : PyStr} {v : Int} :
    a ∈ keysOf (dictSet c k v) ↔ a ∈ keysOf c ∨ a = k := by
  cases h : dictHasKey c k with
  | true =>
    rw [keysOf_dictSet_of_hasKey v h]
    constructor
    · exact Or.inl
    · rintro (ha | rfl)
      · exact ha
      · exact dictHasKey_iff.mp h
  | false =>
    rw [keysOf_dictSet_of_not v h, List.mem_append]
    simp

theorem nodup_keysOf_dictSet {c : HistCat} {k : PyStr} (v : Int)
    (h : (keysOf c).Nodup) : (keysOf (dictSet c k v)).Nodup := by
  cases hk : dictHasKey c k with
  | true => rw [keysOf_dictSet_of_hasKey v hk]; exact h
  | false =>
    rw [keysOf_dictSet_of_not v hk]
    have : k ∉ keysOf c := fun hm => by simp [dictHasKey_iff.mpr hm] at hk
    simp [List.nodup_append, h, this]

theorem length_keysOf_dictSet_ge {c : HistCat} {k : PyStr} (v : Int) :
    (keysOf c).length ≤ (keysOf (dictSet c k v)).length := by
  cases hk : dictHasKey c k with
  | true => rw [keysOf_dictSet_of_hasKey v hk]
  | false => rw [keysOf_dictSet_of_not v hk]; simp

/-! ### Retention pruning lemmas -/

theorem sortAsc_perm (l : List PyStr) : List.Perm (sortAsc l) l :=
  List.perm_insertionSort dateLe l

theorem sortAsc_sorted (l : List PyStr) : List.Sorted dateLe (sortAsc l) :=
  List.sorted_insertionSort dateLe l

theorem sortAsc_length (l : List PyStr) : (sortAsc l).length = l.length :=
  (sortAsc_perm l).length_eq

theorem sortAsc_nodup {l : List PyStr} (h : l.Nodup) : (sortAsc l).Nodup :=
  ((sortAsc_perm l).symm).nodup h

theorem sortAsc_mem {l : List PyStr} {a : PyStr} : a ∈ sortAsc l ↔ a ∈ l :=
  (sortAsc_perm l).mem_iff

/-- Deleting the keys of `(sortAsc (keysOf c)).take n` from `c` leaves a
key list that is a permutation of `(sortAsc (keysOf c)).drop n`. -/
theorem keysOf_del_take_perm {c : HistCat} (hn : (keysOf c).Nodup) (n : Nat) :
    List.Perm (keysOf (((sortAsc (keysOf c)).take n).foldl dictDel c))
      ((sortAsc (keysOf c)).drop n) := by
  rw [keysOf_foldl_dictDel]
  have hperm : List.Perm (keysOf c) (sortAsc (keysOf c)) := (sortAsc_perm _).symm
  have hnodupS : (sortAsc (keysOf c)).Nodup := sortAsc_nodup hn
  have hsplit := List.take_append_drop n (sortAsc (keysOf c))
  have hdisj : List.Disjoint ((sortAsc (keysOf c)).take n) ((sortAsc (keysOf c)).drop n) := by
    have : (((sortAsc (keysOf c)).take n) ++ ((sortAsc (keysOf c)).drop n)).Nodup := by
      rw [hsplit]
      exact hnodupS
    exact (List.nodup_append.mp this).2.2
  have hfil := hperm.filter (fun k => !decide (k ∈ (sortAsc (keysOf c)).take n))
  refine hfil.trans ?_
  conv_lhs => rw [← hsplit]
  rw [List.filter_append]
  rw [List.filter_eq_nil_iff.mpr (fun a ha => by simp [ha]),
      List.filter_eq_self.mpr (fun a ha => by
        have hna : a ∉ (sortAsc (keysOf c)).take n := fun hm => hdisj hm ha
        simp [hna])]
  exact List.Perm.refl _

/-- The pruning step on a category with more than 30 distinct dates keeps
exactly the keys in the last-30 suffix of the ascending date sort. -/
theorem keysOf_pruneCat_perm {cat : HistCat} (hn : (keysOf cat).Nodup)
    (hlen : 30 < (keysOf cat).length) :
    List.Perm (keysOf (pruneCat cat))
      ((sortAsc (keysOf cat)).drop ((sortAsc (keysOf cat)).length - 30)) := by
  unfold pruneCat
  rw [if_pos (by rw [sortAsc_length]; exact hlen)]
  exact keysOf_del_take_perm hn _

/-- On a category bounded by `today` that contains `today`, `today` is not
among the pruned dates. -/
theorem today_notin_take {cat : HistCat} {today : PyStr} (hn : (keysOf cat).Nodup)
    (hb : ∀ d ∈ keysOf cat, dateLe d today)
    (hlen : 30 < (sortAsc (keysOf cat)).length) :
    today ∉ (sortAsc (keysOf cat)).take ((sortAsc (keysOf cat)).length - 30) := by
  intro htake
  have hnodupS : (sortAsc (keysOf cat)).Nodup := sortAsc_nodup hn
  have hsplit := List.take_append_drop ((sortAsc (keysOf cat)).length - 30) (sortAsc (keysOf cat))
  have hsorted : List.Sorted dateLe (sortAsc (keysOf cat)) := sortAsc_sorted _
  have hpw : ∀ x ∈ (sortAsc (keysOf cat)).take ((sortAsc (keysOf cat)).length - 30),
      ∀ y ∈ (sortAsc (keysOf cat)).drop ((sortAsc (keysOf cat)).length - 30), dateLe x y := by
    have := hsorted
    rw [← hsplit, List.Sorted, List.pairwise_append] at this
    exact this.2.2
  have hdroplen : 0 < ((sortAsc (keysOf cat)).drop ((sortAsc (keysOf cat)).length - 30)).length := by
    rw [List.length_drop]
    omega
  obtain ⟨y, hy⟩ := List.exists_mem_of_length_pos hdroplen
  have h1 : dateLe today y := hpw today htake y hy
  have h2 : dateLe y today := hb y (sortAsc_mem.mp (by rw [← hsplit]; exact List.mem_append_right _ hy))
  have heq : today = y := dateLe_antisymm h1 h2
  have hdisj : List.Disjoint ((sortAsc (keysOf cat)).take ((sortAsc (keysOf cat)).length - 30))
      ((sortAsc (keysOf cat)).drop ((sortAsc (keysOf cat)).length - 30)) := by
    have hnd : (((sortAsc (keysOf cat)).take ((sortAsc (keysOf cat)).length - 30)) ++
        ((sortAsc (keysOf cat)).drop ((sortAsc (keysOf cat)).length - 30))).Nodup := by
      rw [hsplit]
      exact hnodupS
    exact (List.nodup_append.mp hnd).2.2
  exact hdisj htake (heq ▸ hy)

/-- Updating a date-bounded category with `today` and pruning keeps
`today` mapped to the new value and at most 30 dates. -/
theorem updateCat_today {cat : HistCat} {today : PyStr} (v : Int)
    (hn : (keysOf cat).Nodup) (hb : ∀ d ∈ keysOf cat, dateLe d today) :
    dictFind (pruneCat (dictSet cat today v)) today = some v ∧
    (keysOf (pruneCat (dictSet cat today v))).length ≤ 30 := by
  have hn' : (keysOf (dictSet cat today v)).Nodup := nodup_keysOf_dictSet v hn
  have hb' : ∀ d ∈ keysOf (dictSet cat today v), dateLe d today := by
    intro d hd
    rcases mem_keysOf_dictSet.mp hd with hd | rfl
    · exact hb d hd
    · exact Or.inr rfl
  unfold pruneCat
  by_cases hlen : 30 < (sortAsc (keysOf (dictSet cat today v))).length
  · rw [if_pos hlen]
    have hnt := today_notin_take hn' hb' hlen
    constructor
    · rw [dictFind_foldl_dictDel hnt]
      exact dictFind_dictSet cat today v
    · have hperm := keysOf_del_take_perm hn'
        ((sortAsc (keysOf (dictSet cat today v))).length - 30)
      rw [hperm.length_eq, List.length_drop]
      omega
  · rw [if_neg hlen]
    exact ⟨dictFind_dictSet cat today v, by rw [← sortAsc_length]; omega⟩

/-- Retention on a category with more than 30 distinct dates: exactly 30
dates remain, they are the last-30 suffix of the ascending sort, and every
pruned date precedes every kept date. -/
theorem pruneCat_spec {cat : HistCat} (hn : (keysOf cat).Nodup)
    (hlen : 30 < (keysOf cat).length) :
    (keysOf (pruneCat cat)).length = 30 ∧
    (∀ d, d ∈ keysOf (pruneCat cat) ↔
      d ∈ (sortAsc (keysOf cat)).drop ((sortAsc (keysOf cat)).length - 30)) ∧
    (∀ x ∈ keysOf cat, x ∉ keysOf (pruneCat cat) →
      ∀ y ∈ keysOf (pruneCat cat), dateLe x y) := by
  have hperm := keysOf_pruneCat_perm hn hlen
  have hslen : (sortAsc (keysOf cat)).length = (keysOf cat).length := sortAsc_length _
  refine ⟨?_, fun d => hperm.mem_iff, ?_⟩
  · rw [hperm.length_eq, List.length_drop]
    omega
  · intro x hx hnx y hy
    have hys : y ∈ (sortAsc (keysOf cat)).drop ((sortAsc (keysOf cat)).length - 30) :=
      hperm.mem_iff.mp hy
    have hxs : x ∈ sortAsc (keysOf cat) := sortAsc_mem.mpr hx
    have hxnd : x ∉ (sortAsc (keysOf cat)).drop ((sortAsc (keysOf cat)).length - 30) :=
      fun hm => hnx (hperm.mem_iff.mpr hm)
    have hxtd : x ∈ (sortAsc (keysOf cat)).take ((sortAsc (keysOf cat)).length - 30) ++
        (sortAsc (keysOf cat)).drop ((sortAsc (keysOf cat)).length - 30) := by
      rw [List.take_append_drop]
      exact hxs
    have hxt : x ∈ (sortAsc (keysOf cat)).take ((sortAsc (keysOf cat)).length - 30) := by
      rcases List.mem_append.mp hxtd with h | h
      · exact h
      · exact absurd h hxnd
    have hsorted := sortAsc_sorted (keysOf cat)
    rw [← List.take_append_drop ((sortAsc (keysOf cat)).length - 30) (sortAsc (keysOf cat)),
        List.Sorted, List.pairwise_append] at hsorted
    exact hsorted.2.2 x hxt y hys

/-- Claim C7: history retention.  After a non-first-run call on a history
holding more than 30 distinct dates in a category, exactly 30 dates remain
for that category; they are exactly the last-30 suffix of the ascending
(lexical) sort of the post-insertion date set, i.e. the 30 lexically most
recent dates, and every pruned date lexically precedes every kept date. -/
theorem claim_C7 (today : PyStr) (history : History) (cc oc : Int) :
    ((keysOf history.community).Nodup → 30 < (keysOf history.community).length →
      (keysOf (calculate_new_plugins today history cc oc).1.community).length = 30 ∧
      (∀ d, d ∈ keysOf (calculate_new_plugins today history cc oc).1.community ↔
        d ∈ (sortAsc (keysOf (dictSet history.community today cc))).drop
          ((sortAsc (keysOf (dictSet history.community today cc))).length - 30)) ∧
      (∀ x ∈ keysOf (dictSet history.community today cc),
        x ∉ keysOf (calculate_new_plugins today history cc oc).1.community →
        ∀ y ∈ keysOf (calculate_new_plugins today history cc oc).1.community, dateLe x y)) ∧
    ((keysOf history.official).Nodup → 30 < (keysOf history.official).length →
      (keysOf (calculate_new_plugins today history cc oc).1.official).length = 30 ∧
      (∀ d, d ∈ keysOf (calculate_new_plugins today history cc oc).1.official ↔
        d ∈ (sortAsc (keysOf (dictSet history.official today oc))).drop
          ((sortAsc (keysOf (dictSet history.official today oc))).length - 30)) ∧
      (∀ x ∈ keysOf (dictSet history.official today oc),
        x ∉ keysOf (calculate_new_plugins today history cc oc).1.official →
        ∀ y ∈ keysOf (calculate_new_plugins today history cc oc).1.official, dateLe x y)) := by
  constructor
  · intro hn hlen
    have hcne : history.community ≠ [] := by
      intro h
      rw [h] at hlen
      simp [keysOf] at hlen
    have hfr : ¬(history.community = [] ∧ history.official = []) := fun h => hcne h.1
    have hcalc : (calculate_new_plugins today history cc oc).1.community =
        pruneCat (dictSet history.community today cc) := by
      unfold calculate_new_plugins
      rw [if_neg hfr]
    rw [hcalc]
    exact pruneCat_spec (nodup_keysOf_dictSet cc hn)
      (lt_of_lt_of_le hlen (length_keysOf_dictSet_ge cc))
  · intro hn hlen
    have hone : history.official ≠ [] := by
      intro h
      rw [h] at hlen
      simp [keysOf] at hlen
    have hfr : ¬(history.community = [] ∧ history.official = []) := fun h => hone h.2
    have hcalc : (calculate_new_plugins today history cc oc).1.official =
        pruneCat (dictSet history.official today oc) := by
      unfold calculate_new_plugins
      rw [if_neg hfr]
    rw [hcalc]
    exact pruneCat_spec (nodup_keysOf_dictSet oc hn)
      (lt_of_lt_of_le hlen (length_keysOf_dictSet_ge oc))

/-- Claim C10: on any history whose recorded dates all lie on or before
`today` (with dict-unique keys), after `calculate_new_plugins` both
categories map `today` to the current count passed in, and each category
holds at most 30 recorded dates. -/
theorem claim_C10 (today : PyStr) (history : History) (cc oc : Int)
    (hn1 : (keysOf history.community).Nodup) (hn2 : (keysOf history.official).Nodup)
    (hb1 : ∀ d ∈ keysOf history.community, dateLe d today)
    (hb2 : ∀ d ∈ keysOf history.official, dateLe d today) :
    dictFind (calculate_new_plugins today history cc oc).1.community today = some cc ∧
    dictFind (calculate_new_plugins today history cc oc).1.official today = some oc ∧
    (keysOf (calculate_new_plugins today history cc oc).1.community).length ≤ 30 ∧
    (keysOf (calculate_new_plugins today history cc oc).1.official).length ≤ 30 := by
  by_cases hfr : history.community = [] ∧ history.official = []
  · unfold calculate_new_plugins
    rw [if_pos hfr]
    dsimp only
    refine ⟨dictFind_dictSet _ today cc, dictFind_dictSet _ today oc, ?_, ?_⟩
    · rw [hfr.1]
      rw [@keysOf_dictSet_of_not [] today cc rfl]
      simp [keysOf]
    · rw [hfr.2]
      rw [@keysOf_dictSet_of_not [] today oc rfl]
      simp [keysOf]
  · unfold calculate_new_plugins
    rw [if_neg hfr]
    dsimp only
    exact ⟨(updateCat_today cc hn1 hb1).1, (updateCat_today oc hn2 hb2).1,
           (updateCat_today cc hn1 hb1).2, (updateCat_today oc hn2 hb2).2⟩

/-- Witness for claim C10 on a small bounded history. -/
theorem claim_C10_witness :
    dictFind (calculate_new_plugins ("2026-02-02".data)
      ⟨[(("2026-01-01".data), 3)], []⟩ 8 9).1.community ("2026-02-02".data) = some 8 ∧
    dictFind (calculate_new_plugins ("2026-02-02".data)
      ⟨[(("2026-01-01".data), 3)], []⟩ 8 9).1.official ("2026-02-02".data) = some 9 ∧
    (keysOf (calculate_new_plugins ("2026-02-02".data)
      ⟨[(("2026-01-01".data), 3)], []⟩ 8 9).1.community).length ≤ 30 ∧
    (keysOf (calculate_new_plugins ("2026-02-02".data)
      ⟨[(("2026-01-01".data), 3)], []⟩ 8 9).1.official).length ≤ 30 :=
  claim_C10 ("2026-02-02".data) ⟨[(("2026-01-01".data), 3)], []⟩ 8 9
    (by decide) (by decide) (by decide) (by decide)

/-- Witness for claim C7: a community history with 31 distinct dates is
pruned to exactly 30 recorded dates. -/
theorem claim_C7_witness :
    (keysOf (calculate_new_plugins ("a99".data)
      ⟨[(("a00".data), 0), (("a01".data), 1), (("a02".data), 2), (("a03".data), 3), (("a04".data), 4), (("a05".data), 5), (("a06".data), 6), (("a07".data), 7), (("a08".data), 8), (("a09".data), 9), (("a10".data), 10), (("a11".data), 11), (("a12".data), 12), (("a13".data), 13), (("a14".data), 14), (("a15".data), 15), (("a16".data), 16), (("a17".data), 17), (("a18".data), 18), (("a19".data), 19), (("a20".data), 20), (("a21".data), 21), (("a22".data), 22), (("a23".data), 23), (("a24".data), 24), (("a25".data), 25), (("a26".data), 26), (("a27".data), 27), (("a28".data), 28), (("a29".data), 29), (("a30".data), 30)], []⟩ 5 6).1.community).length = 30 :=
  ((claim_C7 ("a99".data)
      ⟨[(("a00".data), 0), (("a01".data), 1), (("a02".data), 2), (("a03".data), 3), (("a04".data), 4), (("a05".data), 5), (("a06".data), 6), (("a07".data), 7), (("a08".data), 8), (("a09".data), 9), (("a10".data), 10), (("a11".data), 11), (("a12".data), 12), (("a13".data), 13), (("a14".data), 14), (("a15".data), 15), (("a16".data), 16), (("a17".data), 17), (("a18".data), 18), (("a19".data), 19), (("a20".data), 20), (("a21".data), 21), (("a22".data), 22), (("a23".data), 23), (("a24".data), 24), (("a25".data), 25), (("a26".data), 26), (("a27".data), 27), (("a28".data), 28), (("a29".data), 29), (("a30".data), 30)], []⟩ 5 6).1 (by decide) (by decide)).1
